import Mathlib

/-!
Verification of the NTC thermistor calibration core.

Shallow embedding of the numerical core of the NTCCalibration repository
(`steinhart_hart_ntc.py` and `ntc_lut.py`) over the real numbers, together
with theorems settling the frozen claims about it.

Python floats are modelled as real numbers.  Python `assert` statements at
function entry are modelled by `Except String` results: the `.error` branch
carries the assertion message and the `.ok` branch the returned value.
`np.linalg.lstsq` is an external library routine (not part of the
repository); it is modelled by an explicit `solver` parameter whose contract
(least-squares minimiser, minimum-norm among minimisers, as documented for
`numpy.linalg.lstsq`) appears as a hypothesis where a claim depends on it.
-/

open Real

/-- Embedding of `sh_p` from `steinhart_hart_ntc.py` (lines 5-9): the Steinhart-Hart
polynomial `Σ cᵢ · (ln r)^pᵢ`, accumulated over `zip(coefficients, terms)`. -/
noncomputable def sh_p (resistance : ℝ) (coefficients : List ℝ) (terms : List ℕ) : ℝ :=
  ((coefficients.zip terms).map fun ct => ct.1 * Real.log resistance ^ ct.2).sum

/-- Embedding of `sh_dp_dr` from `steinhart_hart_ntc.py` (lines 12-17): derivative of the
polynomial part; terms with exponent `0` are skipped (`if p > 0`). -/
noncomputable def sh_dp_dr (resistance : ℝ) (coefficients : List ℝ) (terms : List ℕ) : ℝ :=
  ((coefficients.zip terms).map fun ct =>
    if 0 < ct.2 then ct.1 * (ct.2 : ℝ) * Real.log resistance ^ (ct.2 - 1) * (1 / resistance)
    else 0).sum

/-- Embedding of `steinhart_hart` from `steinhart_hart_ntc.py` (lines 20-26):
`1 / sh_p`, minus `273.15` when the result is requested in Celsius.
(The length assertion at its entry is modelled at the entry of the public
operations `inverse_steinhart_hart` and `fit_steinhart_hart`, where the
same lists are validated before this formula is ever evaluated.) -/
noncomputable def steinhart_hart (resistance : ℝ) (coefficients : List ℝ) (terms : List ℕ)
    (temp_in_celsius : Bool) : ℝ :=
  let temp := 1 / sh_p resistance coefficients terms
  if temp_in_celsius then temp - 273.15 else temp

/-- Embedding of `steinhart_hart_derivative` from `steinhart_hart_ntc.py` (lines 29-37):
`-dp_dr / p²`. -/
noncomputable def steinhart_hart_derivative (resistance : ℝ) (coefficients : List ℝ)
    (terms : List ℕ) (temp_in_celsius : Bool) : ℝ :=
  -sh_dp_dr resistance coefficients terms / (sh_p resistance coefficients terms) ^ 2

/-- One Newton update of `inverse_steinhart_hart`
(`steinhart_hart_ntc.py` lines 56-59):
`r ← max(r - f(r)/f'(r), min_resistance)` with
`f(r) = steinhart_hart(r) - temperature`. -/
noncomputable def newton_step (temperature : ℝ) (coefficients : List ℝ) (terms : List ℕ)
    (temp_in_celsius : Bool) (min_resistance : ℝ) (r : ℝ) : ℝ :=
  let f := steinhart_hart r coefficients terms temp_in_celsius - temperature
  let df_dr := steinhart_hart_derivative r coefficients terms temp_in_celsius
  max (r - f / df_dr) min_resistance

/-- The `for i in range(max_iterations)` loop of `inverse_steinhart_hart`
(`steinhart_hart_ntc.py` lines 54-62), with the remaining iteration count as
fuel.  Each pass computes the residual `f` at the current iterate, performs
the clamped Newton update, and only then breaks when `|f| < tolerance`
(so the returned value is the updated iterate, one step past the one whose
residual was tested). -/
noncomputable def inverse_sh_loop (temperature : ℝ) (coefficients : List ℝ) (terms : List ℕ)
    (temp_in_celsius : Bool) (min_resistance tolerance : ℝ) : ℕ → ℝ → ℝ
  | 0, r => r
  | n + 1, r =>
    let f := steinhart_hart r coefficients terms temp_in_celsius - temperature
    let r2 := newton_step temperature coefficients terms temp_in_celsius min_resistance r
    if |f| < tolerance then r2
    else inverse_sh_loop temperature coefficients terms temp_in_celsius min_resistance tolerance
      n r2

/-- Embedding of `inverse_steinhart_hart` from `steinhart_hart_ntc.py` (lines 40-64):
entry assertion on the list lengths, then the Newton loop started at
`initial_guess`, returning the last iterate. -/
noncomputable def inverse_steinhart_hart (temperature : ℝ) (coefficients : List ℝ)
    (terms : List ℕ) (initial_guess : ℝ) (temp_in_celsius : Bool) (min_resistance : ℝ)
    (max_iterations : ℕ) (tolerance : ℝ) : Except String ℝ :=
  if coefficients.length = terms.length then
    .ok (inverse_sh_loop temperature coefficients terms temp_in_celsius min_resistance tolerance
      max_iterations initial_guess)
  else .error "Number of coefficients and terms must have the same length"

/-! Model fitting (`fit_steinhart_hart`, `steinhart_hart_ntc.py` lines 67-97). -/

/-- The design matrix built at `steinhart_hart_ntc.py` lines 83-91, as a list
of rows: entry `(i, j)` is `(ln resistanceᵢ) ^ powersⱼ`. -/
noncomputable def design_matrix (resistance : List ℝ) (powers : List ℕ) : List (List ℝ) :=
  resistance.map fun r => powers.map fun p => Real.log r ^ p

/-- The right-hand side built at `steinhart_hart_ntc.py` line 85: inverse
temperatures, converted to Kelvin first when `temp_in_celsius`. -/
noncomputable def inv_temps (temperature : List ℝ) (temp_in_celsius : Bool) : List ℝ :=
  temperature.map fun t => 1 / (if temp_in_celsius then t + 273.15 else t)

/-- Dot product of two real lists (truncating at the shorter one). -/
noncomputable def dot (xs ys : List ℝ) : ℝ :=
  ((xs.zip ys).map fun q => q.1 * q.2).sum

/-- Sum of squared residuals of `A·x = b` over the rows of `A` paired with
the entries of `b`. -/
noncomputable def rss (A : List (List ℝ)) (b : List ℝ) (x : List ℝ) : ℝ :=
  ((A.zip b).map fun rb => (dot rb.1 x - rb.2) ^ 2).sum

/-- Squared Euclidean norm of a real list. -/
noncomputable def sqnorm (x : List ℝ) : ℝ :=
  (x.map fun a => a ^ 2).sum

/-- Predicate: `x` is a least-squares solution of `A·x = b` with `n` unknowns: among all
candidate vectors of length `n` it minimises the sum of squared residuals. -/
def IsLstsqSol (A : List (List ℝ)) (b : List ℝ) (n : ℕ) (x : List ℝ) : Prop :=
  x.length = n ∧ ∀ y : List ℝ, y.length = n → rss A b x ≤ rss A b y

/-- Predicate: `x` is the minimum-norm least-squares solution of `A·x = b`: the contract
documented for `numpy.linalg.lstsq` (SVD-based solve returning the minimiser
of smallest Euclidean norm). -/
def IsMinNormLstsqSol (A : List (List ℝ)) (b : List ℝ) (n : ℕ) (x : List ℝ) : Prop :=
  IsLstsqSol A b n x ∧ ∀ y : List ℝ, IsLstsqSol A b n y → sqnorm x ≤ sqnorm y

/-- Embedding of `fit_steinhart_hart` from `steinhart_hart_ntc.py` (lines 67-97): the three
entry assertions in source order, then the design matrix and inverse
temperatures are built and handed to the least-squares solver
(`np.linalg.lstsq`, abstracted as the `solver` argument). -/
noncomputable def fit_steinhart_hart (solver : List (List ℝ) → List ℝ → List ℝ)
    (temperature resistance : List ℝ) (powers : List ℕ) (temp_in_celsius : Bool) :
    Except String (List ℝ) :=
  if temperature.length = resistance.length then
    if powers.length ≤ temperature.length then
      if 1 ≤ powers.length then
        .ok (solver (design_matrix resistance powers) (inv_temps temperature temp_in_celsius))
      else .error "Number of coefficients must be at least 1"
    else
      .error "Number of temperature and resistance pairs must be at least the number of coefficients + 1 (constant + number of polynomial terms)"
  else .error "Number of temperature and resistance pairs must be the same"

/-! Unit conversion (`ntc_lut.py` lines 5-38). -/

/-- Embedding of `numpy.round`: round half to even, returning a real
number as the float code does. -/
noncomputable def np_round (x : ℝ) : ℝ :=
  if Int.fract x < 1 / 2 then ⌊x⌋
  else if 1 / 2 < Int.fract x then ⌈x⌉
  else if Even ⌊x⌋ then ⌊x⌋ else ⌈x⌉

/-- Embedding of `adc_to_resistance` from `ntc_lut.py` (lines 5-19), scalar form (the
source applies it elementwise over a numpy array):
voltage = adc·vRef/(2^bits − 1); resistance = voltage·rPullUp/(vRef − voltage). -/
noncomputable def adc_to_resistance (adc_value : ℝ) (adc_resolution : ℕ)
    (reference_voltage pull_up_resistance : ℝ) : ℝ :=
  let voltage := adc_value * reference_voltage / (2 ^ adc_resolution - 1)
  voltage * pull_up_resistance / (reference_voltage - voltage)

/-- Embedding of `resistance_to_adc` from `ntc_lut.py` (lines 22-38), scalar form:
voltage = r·vRef/(rPullUp + r); code = round(voltage/vRef · (2^bits − 1)). -/
noncomputable def resistance_to_adc (resistance : ℝ) (adc_resolution : ℕ)
    (reference_voltage pull_up_resistance : ℝ) : ℝ :=
  let voltage := resistance * reference_voltage / (pull_up_resistance + resistance)
  np_round (voltage / reference_voltage * (2 ^ adc_resolution - 1))

/-! Table builders (`ntc_lut.py` lines 41-85). -/

/-- Embedding of `steinhart_hart_to_adc_lut` from `ntc_lut.py` (lines 41-67): the five
entry assertions in source order, then one inverse-model evaluation per
sample temperature — note the call at line 63 passes `True` for
`temp_in_celsius`, `1.0` for the initial guess and `1e-6` for the minimum
resistance — followed by the resistance→ADC conversion and pairing. -/
noncomputable def steinhart_hart_to_adc_lut (sample_temps : List ℝ) (adc_resolution : ℕ)
    (reference_voltage pull_up_resistance : ℝ) (coefficients : List ℝ) (terms : List ℕ)
    (temp_in_celsius : Bool) (max_iterations : ℕ) (tolerance : ℝ) :
    Except String (List (ℝ × ℝ)) :=
  if 1 ≤ coefficients.length then
    if 1 ≤ adc_resolution then
      if 0 < reference_voltage then
        if 0 < pull_up_resistance then
          if 0 < sample_temps.length then do
            let sample_resistances ← sample_temps.mapM fun t =>
              inverse_steinhart_hart t coefficients terms 1.0 true (1e-6) max_iterations
                tolerance
            let sample_adc_values := sample_resistances.map fun r =>
              resistance_to_adc r adc_resolution reference_voltage pull_up_resistance
            pure (sample_temps.zip sample_adc_values)
          else .error "Number of sample temperatures must be at least 1"
        else .error "Pull-up resistance must be positive"
      else .error "Reference voltage must be positive"
    else .error "ADC resolution must be at least 1"
  else .error "Number of coefficients must be at least 1"

/-- Embedding of `steinhart_hart_to_resistance_lut` from `ntc_lut.py` (lines 70-85): the
two entry assertions, then one inverse-model evaluation per sample
temperature — the call at line 83 again passes `True` for `temp_in_celsius`
regardless of the `temp_in_celsius` argument of the builder itself. -/
noncomputable def steinhart_hart_to_resistance_lut (sample_temps : List ℝ)
    (coefficients : List ℝ) (terms : List ℕ) (temp_in_celsius : Bool)
    (max_iterations : ℕ) (tolerance : ℝ) : Except String (List (ℝ × ℝ)) :=
  if 1 ≤ coefficients.length then
    if 0 < sample_temps.length then do
      let sample_resistances ← sample_temps.mapM fun t =>
        inverse_steinhart_hart t coefficients terms 1.0 true (1e-6) max_iterations tolerance
      pure (sample_temps.zip sample_resistances)
    else .error "Number of sample temperatures must be at least 1"
  else .error "Number of coefficients must be at least 1"

/-- Embedding of `fit_adc_lut` from `ntc_lut.py` (lines 88-136): the three entry
assertions in source order, then ADC→resistance conversion of the measured
codes, coefficient fitting, and the nested ADC table build.  No assertion at
this level inspects the device electrical parameters or either ADC
resolution. -/
noncomputable def fit_adc_lut (solver : List (List ℝ) → List ℝ → List ℝ)
    (measured_temps sample_temps adc_values : List ℝ)
    (source_adc_resolution target_adc_resolution : ℕ)
    (reference_voltage pull_up_resistance : ℝ) (steinhart_hart_powers : List ℕ)
    (temp_in_celsius : Bool) (extrapolation_max_iterations : ℕ)
    (extrapolation_tolerance : ℝ) : Except String (List (ℝ × ℝ) × List ℝ) :=
  if 0 < measured_temps.length then
    if measured_temps.length = adc_values.length then
      if 0 < steinhart_hart_powers.length then do
        let resistances := adc_values.map fun a =>
          adc_to_resistance a source_adc_resolution reference_voltage pull_up_resistance
        let sh_coeffs ← fit_steinhart_hart solver measured_temps resistances
          steinhart_hart_powers temp_in_celsius
        let lut ← steinhart_hart_to_adc_lut sample_temps target_adc_resolution
          reference_voltage pull_up_resistance sh_coeffs steinhart_hart_powers
          temp_in_celsius extrapolation_max_iterations extrapolation_tolerance
        pure (lut, sh_coeffs)
      else .error "Number of steinhart-hart powers must be at least 1"
    else .error "Number of measured temperatures and ADC values must be equal"
  else .error "Number of measured temperatures must be at least 1"

/-! Theorems settling the claims. -/

/-- C1: the claim states that the table builders pass the caller-supplied
temperature-unit flag through to the inverse model evaluation.  In the code
(`ntc_lut.py` lines 63 and 83) the inverse evaluation is invoked with
`temp_in_celsius` hard-coded to `True`, so both builders are entirely
independent of their own `temp_in_celsius` argument: with the flag set to
Kelvin they still build the table against the Celsius-adjusted model
(`273.15` subtracted), contradicting the claim.  This theorem evaluates the
code at the failing configuration: flipping the flag never changes the
output of either builder. -/
theorem c1_lut_builders_ignore_unit_flag :
    ∀ (sample_temps : List ℝ) (adc_resolution : ℕ)
      (reference_voltage pull_up_resistance : ℝ) (coefficients : List ℝ) (terms : List ℕ)
      (max_iterations : ℕ) (tolerance : ℝ),
      steinhart_hart_to_resistance_lut sample_temps coefficients terms false
          max_iterations tolerance =
        steinhart_hart_to_resistance_lut sample_temps coefficients terms true
          max_iterations tolerance ∧
      steinhart_hart_to_adc_lut sample_temps adc_resolution reference_voltage
          pull_up_resistance coefficients terms false max_iterations tolerance =
        steinhart_hart_to_adc_lut sample_temps adc_resolution reference_voltage
          pull_up_resistance coefficients terms true max_iterations tolerance :=
  fun _ _ _ _ _ _ _ _ => ⟨rfl, rfl⟩

/-- Every value returned by the Newton loop with at least one remaining
iteration is the output of a clamped update, hence at least
`min_resistance`. -/
theorem inverse_sh_loop_ge_min (temperature : ℝ) (coefficients : List ℝ) (terms : List ℕ)
    (temp_in_celsius : Bool) (min_resistance tolerance : ℝ) :
    ∀ (n : ℕ) (r : ℝ),
      min_resistance ≤
        inverse_sh_loop temperature coefficients terms temp_in_celsius min_resistance
          tolerance (n + 1) r := by
  intro n
  induction n with
  | zero =>
    intro r
    by_cases hf : |steinhart_hart r coefficients terms temp_in_celsius - temperature| <
        tolerance <;>
      simp [inverse_sh_loop, newton_step, hf]
  | succ m ih =>
    intro r
    by_cases hf : |steinhart_hart r coefficients terms temp_in_celsius - temperature| <
        tolerance
    · simp [inverse_sh_loop, newton_step, hf]
    · simpa [inverse_sh_loop, hf] using
        ih (newton_step temperature coefficients terms temp_in_celsius min_resistance r)

/-- C2: each Newton update of `inverse_steinhart_hart` is
`r ← max(r − f(r)/f'(r), min_resistance)` with
`f(r) = steinhart_hart(r) − temperature`; consequently no iterate produced
by an update step — in particular no value returned after at least one loop
pass — lies below `min_resistance`. -/
theorem c2_newton_update_clamped (temperature : ℝ) (coefficients : List ℝ) (terms : List ℕ)
    (temp_in_celsius : Bool) (min_resistance tolerance : ℝ) :
    (∀ r : ℝ,
      newton_step temperature coefficients terms temp_in_celsius min_resistance r =
        max (r - (steinhart_hart r coefficients terms temp_in_celsius - temperature) /
          steinhart_hart_derivative r coefficients terms temp_in_celsius) min_resistance ∧
      min_resistance ≤
        newton_step temperature coefficients terms temp_in_celsius min_resistance r) ∧
    ∀ (n : ℕ) (r : ℝ), 1 ≤ n →
      min_resistance ≤
        inverse_sh_loop temperature coefficients terms temp_in_celsius min_resistance
          tolerance n r := by
  refine ⟨fun r => ⟨rfl, le_max_right _ _⟩, fun n r hn => ?_⟩
  obtain ⟨m, rfl⟩ := Nat.exists_eq_add_of_le hn
  simpa [Nat.add_comm] using
    inverse_sh_loop_ge_min temperature coefficients terms temp_in_celsius min_resistance
      tolerance m r

/-- Witness for C2 at a concrete input. -/
theorem c2_newton_update_clamped_witness :
    (1 : ℕ) ≤ 1 ∧ (1 / 2 : ℝ) ≤ inverse_sh_loop 300 [1] [0] false (1 / 2) 1 1 2 :=
  ⟨le_refl 1,
    (c2_newton_update_clamped 300 [1] [0] false (1 / 2) 1).2 1 2 (le_refl 1)⟩

/-- C10: the convergence test of `inverse_steinhart_hart` compares the
tolerance against the residual at the iterate *before* the Newton update
(`steinhart_hart_ntc.py` computes `f` at line 56, updates `r` at line 59 and
only then tests `|f| < tolerance` at line 61).  When the loop exits through
that test, the returned resistance is one further clamped Newton update past
the iterate whose residual met the tolerance — whatever the residual of the
returned value itself may be, it is never checked. -/
theorem c10_residual_checked_before_update (temperature : ℝ) (coefficients : List ℝ)
    (terms : List ℕ) (temp_in_celsius : Bool) (min_resistance tolerance : ℝ) (n : ℕ) (r : ℝ)
    (h : |steinhart_hart r coefficients terms temp_in_celsius - temperature| < tolerance) :
    inverse_sh_loop temperature coefficients terms temp_in_celsius min_resistance tolerance
      (n + 1) r =
      max (r - (steinhart_hart r coefficients terms temp_in_celsius - temperature) /
        steinhart_hart_derivative r coefficients terms temp_in_celsius) min_resistance := by
  simp [inverse_sh_loop, newton_step, h]

/-- Witness for C10 at a concrete input: with the single-term model
`coefficients = [1]`, `terms = [0]` in Kelvin mode the residual at `r = 1`
for target temperature `1` is `0 < 1`, so a loop with four iterations left
returns after exactly one more clamped update. -/
theorem c10_residual_checked_before_update_witness :
    |steinhart_hart 1 [1] [0] false - 1| < 1 ∧
    inverse_sh_loop 1 [1] [0] false (1 / 2) 1 (3 + 1) 1 =
      max (1 - (steinhart_hart 1 [1] [0] false - 1) /
        steinhart_hart_derivative 1 [1] [0] false) (1 / 2) :=
  ⟨by simp [steinhart_hart, sh_p],
    c10_residual_checked_before_update 1 [1] [0] false (1 / 2) 1 3 1
      (by simp [steinhart_hart, sh_p])⟩

/-- The Newton loop with fuel `n` performs some number `k ≤ n` of clamped
updates and returns the `k`-th iterate; `k` falls short of `n` only when the
residual test succeeded, i.e. the residual at the iterate before the final
update was below the tolerance. -/
theorem inverse_sh_loop_characterisation (temperature : ℝ) (coefficients : List ℝ)
    (terms : List ℕ) (temp_in_celsius : Bool) (min_resistance tolerance : ℝ) :
    ∀ (n : ℕ) (r : ℝ), ∃ k ≤ n,
      inverse_sh_loop temperature coefficients terms temp_in_celsius min_resistance
          tolerance n r =
        (newton_step temperature coefficients terms temp_in_celsius min_resistance)^[k] r ∧
      (k = n ∨ (0 < k ∧
        |steinhart_hart
            ((newton_step temperature coefficients terms temp_in_celsius
              min_resistance)^[k - 1] r)
            coefficients terms temp_in_celsius - temperature| < tolerance)) := by
  intro n
  induction n with
  | zero => exact fun r => ⟨0, le_refl 0, by simp [inverse_sh_loop], Or.inl rfl⟩
  | succ m ih =>
    intro r
    by_cases hf : |steinhart_hart r coefficients terms temp_in_celsius - temperature| <
        tolerance
    · refine ⟨1, Nat.one_le_iff_ne_zero.mpr (Nat.succ_ne_zero m), ?_, Or.inr ⟨Nat.one_pos, ?_⟩⟩
      · simp [inverse_sh_loop, hf]
      · simpa using hf
    · obtain ⟨k, hk, heq, hd⟩ :=
        ih (newton_step temperature coefficients terms temp_in_celsius min_resistance r)
      refine ⟨k + 1, Nat.succ_le_succ hk, ?_, ?_⟩
      · rw [Function.iterate_succ_apply]
        calc inverse_sh_loop temperature coefficients terms temp_in_celsius min_resistance
              tolerance (m + 1) r =
            inverse_sh_loop temperature coefficients terms temp_in_celsius min_resistance
              tolerance m
              (newton_step temperature coefficients terms temp_in_celsius min_resistance r) := by
              simp [inverse_sh_loop, hf]
          _ = _ := heq
      · rcases hd with hd | ⟨hk0, hres⟩
        · exact Or.inl (by omega)
        · refine Or.inr ⟨Nat.succ_pos k, ?_⟩
          have hsub : k + 1 - 1 = (k - 1) + 1 := by omega
          rw [hsub, Function.iterate_succ_apply]
          exact hres

/-- C3: for every input whose coefficient and exponent lists have the same
length (the sole entry assertion) and any iteration budget,
`inverse_steinhart_hart` returns a value — never an error — produced by at
most `max_iterations` clamped Newton updates from the initial guess, the
budget being cut short only when the residual test `|f(r)| < tolerance`
succeeded. -/
theorem c3_inverse_terminates_bounded (temperature : ℝ) (coefficients : List ℝ)
    (terms : List ℕ) (initial_guess : ℝ) (temp_in_celsius : Bool) (min_resistance : ℝ)
    (max_iterations : ℕ) (tolerance : ℝ)
    (hlen : coefficients.length = terms.length) :
    ∃ k ≤ max_iterations,
      inverse_steinhart_hart temperature coefficients terms initial_guess temp_in_celsius
          min_resistance max_iterations tolerance =
        .ok ((newton_step temperature coefficients terms temp_in_celsius
          min_resistance)^[k] initial_guess) ∧
      (k = max_iterations ∨ (0 < k ∧
        |steinhart_hart
            ((newton_step temperature coefficients terms temp_in_celsius
              min_resistance)^[k - 1] initial_guess)
            coefficients terms temp_in_celsius - temperature| < tolerance)) := by
  obtain ⟨k, hk, heq, hd⟩ :=
    inverse_sh_loop_characterisation temperature coefficients terms temp_in_celsius
      min_resistance tolerance max_iterations initial_guess
  exact ⟨k, hk, by simp [inverse_steinhart_hart, hlen, heq], hd⟩

/-- Witness for C3 at a concrete input. -/
theorem c3_inverse_terminates_bounded_witness :
    ([1] : List ℝ).length = ([0] : List ℕ).length ∧
    ∃ k ≤ 3,
      inverse_steinhart_hart 1 [1] [0] 1 false (1 / 2) 3 1 =
        .ok ((newton_step 1 [1] [0] false (1 / 2))^[k] 1) ∧
      (k = 3 ∨ (0 < k ∧
        |steinhart_hart ((newton_step 1 [1] [0] false (1 / 2))^[k - 1] 1) [1] [0] false -
          1| < 1)) :=
  ⟨rfl, c3_inverse_terminates_bounded 1 [1] [0] 1 false (1 / 2) 3 1 rfl⟩

/-- Rounding an exact integer with `np_round` returns that integer. -/
theorem np_round_intCast (n : ℤ) : np_round (n : ℝ) = (n : ℝ) := by
  unfold np_round
  rw [Int.fract_intCast, if_pos (by norm_num : (0 : ℝ) < 1 / 2), Int.floor_intCast]

/-- C7: for every bit resolution `≥ 1`, positive reference voltage and
pull-up resistance, and every ADC code in `[1, 2^bits − 2]`, converting the
code to a resistance and back returns exactly the original code: the
voltage-divider transform is inverted exactly in real arithmetic, so the
value handed to the rounding step is already the integer code. -/
theorem c7_adc_roundtrip (adc_resolution : ℕ) (reference_voltage pull_up_resistance : ℝ)
    (code : ℤ) (hbits : 1 ≤ adc_resolution) (hvref : 0 < reference_voltage)
    (hpull : 0 < pull_up_resistance) (hc1 : 1 ≤ code)
    (hc2 : code ≤ 2 ^ adc_resolution - 2) :
    resistance_to_adc
      (adc_to_resistance (code : ℝ) adc_resolution reference_voltage pull_up_resistance)
      adc_resolution reference_voltage pull_up_resistance = (code : ℝ) := by
  have hM2 : (2 : ℝ) ≤ 2 ^ adc_resolution := by
    calc (2 : ℝ) = 2 ^ 1 := (pow_one 2).symm
    _ ≤ 2 ^ adc_resolution := pow_le_pow_right₀ one_le_two hbits
  have hMpos : (0 : ℝ) < 2 ^ adc_resolution - 1 := by linarith
  have hMne : (2 : ℝ) ^ adc_resolution - 1 ≠ 0 := ne_of_gt hMpos
  have hc0 : (0 : ℝ) < (code : ℝ) := by exact_mod_cast lt_of_lt_of_le Int.zero_lt_one hc1
  have hcode2 : (code : ℝ) ≤ 2 ^ adc_resolution - 2 := by
    have h2 : ((2 ^ adc_resolution - 2 : ℤ) : ℝ) = 2 ^ adc_resolution - 2 := by
      push_cast
      ring
    calc (code : ℝ) ≤ ((2 ^ adc_resolution - 2 : ℤ) : ℝ) := by exact_mod_cast hc2
    _ = 2 ^ adc_resolution - 2 := h2
  have hvrefne : reference_voltage ≠ 0 := ne_of_gt hvref
  have hpullne : pull_up_resistance ≠ 0 := ne_of_gt hpull
  have hvpos : 0 < (code : ℝ) * reference_voltage / (2 ^ adc_resolution - 1) :=
    div_pos (mul_pos hc0 hvref) hMpos
  have hvlt : (code : ℝ) * reference_voltage / (2 ^ adc_resolution - 1) <
      reference_voltage := by
    rw [div_lt_iff₀ hMpos]
    nlinarith
  have step1 : ∀ v : ℝ, 0 < v → v < reference_voltage →
      v * pull_up_resistance / (reference_voltage - v) * reference_voltage /
        (pull_up_resistance + v * pull_up_resistance / (reference_voltage - v)) = v := by
    intro v hv0 hvv
    have hd : reference_voltage - v ≠ 0 := ne_of_gt (by linarith)
    have h1 : pull_up_resistance + v * pull_up_resistance / (reference_voltage - v) =
        pull_up_resistance * reference_voltage / (reference_voltage - v) := by
      field_simp
      ring
    rw [h1, div_eq_iff (div_ne_zero (mul_ne_zero hpullne hvrefne) hd)]
    field_simp
    ring
  simp only [adc_to_resistance, resistance_to_adc]
  rw [step1 _ hvpos hvlt]
  have key : (code : ℝ) * reference_voltage / (2 ^ adc_resolution - 1) /
      reference_voltage * (2 ^ adc_resolution - 1) = (code : ℝ) := by
    field_simp
    ring
  rw [key, np_round_intCast]

/-- Witness for C7 at a concrete input: 2-bit ADC, unit reference voltage
and pull-up, code 1. -/
theorem c7_adc_roundtrip_witness :
    resistance_to_adc (adc_to_resistance ((1 : ℤ) : ℝ) 2 1 1) 2 1 1 = ((1 : ℤ) : ℝ) :=
  c7_adc_roundtrip 2 1 1 1 (by norm_num) (by norm_num) (by norm_num) (by norm_num)
    (by norm_num)

/-- C6: whenever `fit_steinhart_hart` is called with mismatched array
lengths, an empty exponent list, or fewer measurements than exponents, it
returns the descriptive error of the violated entry assertion
(`steinhart_hart_ntc.py` lines 69-73) — and it does so for every solver,
i.e. before the design matrix is handed to the least-squares routine. -/
theorem c6_fit_precondition_failfast (temperature resistance : List ℝ) (powers : List ℕ)
    (temp_in_celsius : Bool)
    (h : temperature.length ≠ resistance.length ∨ powers.length = 0 ∨
      temperature.length < powers.length) :
    ∃ msg : String,
      ∀ solver : List (List ℝ) → List ℝ → List ℝ,
        fit_steinhart_hart solver temperature resistance powers temp_in_celsius =
          .error msg := by
  by_cases h1 : temperature.length = resistance.length
  · by_cases h2 : powers.length ≤ temperature.length
    · have h3 : ¬1 ≤ powers.length := by omega
      exact ⟨"Number of coefficients must be at least 1",
        fun solver => by
          simp only [fit_steinhart_hart, if_pos h1, if_pos h2, if_neg h3]⟩
    · exact
        ⟨"Number of temperature and resistance pairs must be at least the number of coefficients + 1 (constant + number of polynomial terms)",
        fun solver => by simp only [fit_steinhart_hart, if_pos h1, if_neg h2]⟩
  · exact ⟨"Number of temperature and resistance pairs must be the same",
      fun solver => by simp only [fit_steinhart_hart, if_neg h1]⟩

/-- Witness for C6 at a concrete input: one temperature, no resistances. -/
theorem c6_fit_precondition_failfast_witness :
    (([25] : List ℝ).length ≠ ([] : List ℝ).length ∨ ([0] : List ℕ).length = 0 ∨
      ([25] : List ℝ).length < ([0] : List ℕ).length) ∧
    ∃ msg : String,
      ∀ solver : List (List ℝ) → List ℝ → List ℝ,
        fit_steinhart_hart solver [25] [] [0] true = .error msg :=
  ⟨Or.inl (by decide), c6_fit_precondition_failfast [25] [] [0] true (Or.inl (by decide))⟩

/-- C5: under the fit preconditions, `fit_steinhart_hart` hands the solver
exactly the design matrix with entries `(ln resistanceᵢ)^{pⱼ}` and the
right-hand side `1/(temperatureᵢ + 273.15)` (Celsius) or `1/temperatureᵢ`
(Kelvin), and — given that the library solver (`np.linalg.lstsq`) returns a
least-squares minimiser for the system it is handed — the fitted vector is a
least-squares solution of that system. -/
theorem c5_fit_least_squares (solver : List (List ℝ) → List ℝ → List ℝ)
    (temperature resistance : List ℝ) (powers : List ℕ) (temp_in_celsius : Bool)
    (hlen : temperature.length = resistance.length)
    (hpow : 1 ≤ powers.length)
    (hdet : powers.length ≤ temperature.length)
    (hsolver : IsLstsqSol (design_matrix resistance powers)
      (inv_temps temperature temp_in_celsius) powers.length
      (solver (design_matrix resistance powers)
        (inv_temps temperature temp_in_celsius))) :
    ∃ x : List ℝ,
      fit_steinhart_hart solver temperature resistance powers temp_in_celsius = .ok x ∧
      IsLstsqSol (resistance.map fun r => powers.map fun p => Real.log r ^ p)
        (temperature.map fun t => 1 / (if temp_in_celsius then t + 273.15 else t))
        powers.length x := by
  refine ⟨solver (design_matrix resistance powers)
    (inv_temps temperature temp_in_celsius), ?_, hsolver⟩
  simp only [fit_steinhart_hart, if_pos hlen, if_pos hdet, if_pos hpow]

/-- Witness for C5 at a concrete input: one measurement, single exponent 0,
so the design matrix is `[[1]]` and the unique minimiser is the right-hand
side itself. -/
theorem c5_fit_least_squares_witness :
    ∃ x : List ℝ,
      fit_steinhart_hart (fun _ _ => [1 / 298.15]) [25] [1] [0] true = .ok x ∧
      IsLstsqSol (([1] : List ℝ).map fun r => ([0] : List ℕ).map fun p => Real.log r ^ p)
        (([25] : List ℝ).map fun t => 1 / (if true then t + 273.15 else t)) 1 x := by
  have hsolver : IsLstsqSol (design_matrix [1] [0]) (inv_temps [25] true) 1
      [1 / 298.15] := by
    constructor
    · rfl
    · intro y hy
      obtain ⟨a, rfl⟩ := List.length_eq_one.mp hy
      simp [design_matrix, inv_temps, rss, dot]
      norm_num
      positivity
  exact c5_fit_least_squares (fun _ _ => [1 / 298.15]) [25] [1] [0] true rfl
    (by norm_num) (by norm_num) hsolver

/-- C9 counterexample: the claim asserts that `fit_adc_lut` fails fast when
the ADC bit resolution is below 1, before any ADC-to-resistance conversion.
In the code (`ntc_lut.py` lines 101-117) the entry assertions only inspect
the measurement counts and the exponent list; the *source* ADC resolution is
never validated anywhere in the pipeline.  At this concrete input the source
resolution is `0` (below 1) and `fit_adc_lut` nevertheless runs the full
pipeline — conversion with divisor `2^0 − 1 = 0` included — and returns a
table instead of a precondition error. -/
theorem c9_counterexample :
    ∃ v, fit_adc_lut (fun _ _ => [1]) [25] [25] [1] 0 12 (33 / 10) 4700 [0] true 1
      (1 / 1000000) = Except.ok v := by
  refine ⟨?_, ?_⟩
  · exact ([(25, resistance_to_adc
      (inverse_sh_loop 25 [1] [0] true (1e-6) (1 / 1000000) 1 1.0) 12 (33 / 10) 4700)],
      [1])
  · simp only [fit_adc_lut, fit_steinhart_hart, steinhart_hart_to_adc_lut,
      inverse_steinhart_hart, List.length_cons, List.length_nil, List.length_map,
      List.mapM_cons, List.mapM_nil]
    norm_num [List.zip_cons_cons]
    rfl

/-- C9 (amended): `steinhart_hart_to_adc_lut` does fail fast — whenever the
ADC bit resolution is below 1, the reference voltage is non-positive or the
pull-up resistance is non-positive, it returns an assertion error before any
inverse-model evaluation or conversion (`ntc_lut.py` lines 52-61). -/
theorem c9_adc_lut_precondition_failfast (sample_temps : List ℝ) (adc_resolution : ℕ)
    (reference_voltage pull_up_resistance : ℝ) (coefficients : List ℝ) (terms : List ℕ)
    (temp_in_celsius : Bool) (max_iterations : ℕ) (tolerance : ℝ)
    (h : adc_resolution < 1 ∨ reference_voltage ≤ 0 ∨ pull_up_resistance ≤ 0) :
    ∃ msg : String,
      steinhart_hart_to_adc_lut sample_temps adc_resolution reference_voltage
        pull_up_resistance coefficients terms temp_in_celsius max_iterations tolerance =
        .error msg := by
  by_cases h1 : 1 ≤ coefficients.length
  · by_cases h2 : 1 ≤ adc_resolution
    · by_cases h3 : 0 < reference_voltage
      · have h4 : ¬0 < pull_up_resistance := by
          rcases h with h | h | h
          · omega
          · linarith
          · linarith
        exact ⟨"Pull-up resistance must be positive", by
          simp only [steinhart_hart_to_adc_lut, if_pos h1, if_pos h2, if_pos h3,
            if_neg h4]⟩
      · exact ⟨"Reference voltage must be positive", by
          simp only [steinhart_hart_to_adc_lut, if_pos h1, if_pos h2, if_neg h3]⟩
    · exact ⟨"ADC resolution must be at least 1", by
        simp only [steinhart_hart_to_adc_lut, if_pos h1, if_neg h2]⟩
  · exact ⟨"Number of coefficients must be at least 1", by
      simp only [steinhart_hart_to_adc_lut, if_neg h1]⟩

/-- Witness for the amended C9 at a concrete input: zero reference voltage. -/
theorem c9_adc_lut_precondition_failfast_witness :
    ((12 : ℕ) < 1 ∨ (0 : ℝ) ≤ 0 ∨ (4700 : ℝ) ≤ 0) ∧
    ∃ msg : String,
      steinhart_hart_to_adc_lut [25] 12 0 4700 [1] [0] true 5 1 = .error msg :=
  ⟨Or.inr (Or.inl le_rfl),
    c9_adc_lut_precondition_failfast [25] 12 0 4700 [1] [0] true 5 1
      (Or.inr (Or.inl le_rfl))⟩

/-! Least-squares helper lemmas for C8. -/

theorem dot_nil_left (ys : List ℝ) : dot [] ys = 0 := by
  simp [dot]

theorem dot_nil_right (xs : List ℝ) : dot xs [] = 0 := by
  simp [dot]

theorem dot_cons (a b : ℝ) (xs ys : List ℝ) :
    dot (a :: xs) (b :: ys) = a * b + dot xs ys := by
  simp [dot]

theorem rss_cons (row : List ℝ) (A : List (List ℝ)) (bv : ℝ) (b x : List ℝ) :
    rss (row :: A) (bv :: b) x = (dot row x - bv) ^ 2 + rss A b x := by
  simp [rss]

theorem sqnorm_cons (a : ℝ) (x : List ℝ) : sqnorm (a :: x) = a ^ 2 + sqnorm x := by
  simp [sqnorm]

/-- The dot product is affine in its second argument: dotting against the
elementwise midpoint of two equal-length vectors gives the midpoint of the
dot products. -/
theorem dot_zipWith_avg :
    ∀ (row x1 x2 : List ℝ), x1.length = x2.length →
      dot row (List.zipWith (fun a b => (a + b) / 2) x1 x2) =
        (dot row x1 + dot row x2) / 2
  | [], _, _, _ => by simp [dot_nil_left]
  | c :: row, [], x2, h => by
    have hx : x2 = [] := List.length_eq_zero.mp h.symm
    subst hx
    simp [dot_nil_right]
  | c :: row, a :: x1, [], h => by simp at h
  | c :: row, a :: x1, b :: x2, h => by
    have h' : x1.length = x2.length := by simpa using h
    simp only [List.zipWith_cons_cons, dot_cons]
    rw [dot_zipWith_avg row x1 x2 h']
    ring

/-- The residual sum of squares is convex: at the midpoint of two candidate
vectors it is at most the average of their residual sums. -/
theorem rss_avg_le :
    ∀ (A : List (List ℝ)) (b x1 x2 : List ℝ), x1.length = x2.length →
      rss A b (List.zipWith (fun a b => (a + b) / 2) x1 x2) ≤
        (rss A b x1 + rss A b x2) / 2
  | [], _, _, _, _ => by simp [rss]
  | row :: A, [], x1, x2, _ => by simp [rss]
  | row :: A, bv :: b, x1, x2, h => by
    have hrec := rss_avg_le A b x1 x2 h
    have hdot := dot_zipWith_avg row x1 x2 h
    simp only [rss_cons]
    rw [hdot]
    have hhead : ((dot row x1 + dot row x2) / 2 - bv) ^ 2 ≤
        ((dot row x1 - bv) ^ 2 + (dot row x2 - bv) ^ 2) / 2 := by
      nlinarith [sq_nonneg (dot row x1 - dot row x2)]
    linarith

/-- Parallelogram identity for the squared norm of the elementwise
midpoint. -/
theorem sqnorm_avg :
    ∀ (x1 x2 : List ℝ), x1.length = x2.length →
      sqnorm (List.zipWith (fun a b => (a + b) / 2) x1 x2) =
        (sqnorm x1 + sqnorm x2) / 2 -
          (((x1.zip x2).map fun q => (q.1 - q.2) ^ 2).sum) / 4
  | [], [], _ => by simp [sqnorm]
  | [], b :: x2, h => by simp at h
  | a :: x1, [], h => by simp at h
  | a :: x1, b :: x2, h => by
    have h' : x1.length = x2.length := by simpa using h
    simp only [List.zipWith_cons_cons, List.zip_cons_cons, List.map_cons, List.sum_cons,
      sqnorm_cons]
    rw [sqnorm_avg x1 x2 h']
    ring

theorem sq_diff_sum_nonneg (x1 x2 : List ℝ) :
    0 ≤ ((x1.zip x2).map fun q => (q.1 - q.2) ^ 2).sum :=
  List.sum_nonneg fun a ha => by
    obtain ⟨q, _, rfl⟩ := List.mem_map.mp ha
    positivity

/-- Two equal-length vectors whose summed squared differences vanish are
equal. -/
theorem eq_of_sq_diff_sum_nonpos :
    ∀ (x1 x2 : List ℝ), x1.length = x2.length →
      ((x1.zip x2).map fun q => (q.1 - q.2) ^ 2).sum ≤ 0 → x1 = x2
  | [], [], _, _ => rfl
  | [], b :: x2, h, _ => by simp at h
  | a :: x1, [], h, _ => by simp at h
  | a :: x1, b :: x2, h, hs => by
    have h' : x1.length = x2.length := by simpa using h
    simp only [List.zip_cons_cons, List.map_cons, List.sum_cons] at hs
    have h1 : 0 ≤ ((x1.zip x2).map fun q => (q.1 - q.2) ^ 2).sum :=
      sq_diff_sum_nonneg x1 x2
    have h2 : (a - b) ^ 2 = 0 := le_antisymm (by linarith) (sq_nonneg _)
    have hab : a = b := by
      have := sq_eq_zero_iff.mp h2
      linarith
    rw [hab, eq_of_sq_diff_sum_nonpos x1 x2 h' (by linarith)]

/-- The minimum-norm least-squares solution is unique: any two vectors that
both minimise the residual and have minimal norm among minimisers coincide
(strict convexity via the parallelogram identity). -/
theorem minnorm_unique (A : List (List ℝ)) (b : List ℝ) (n : ℕ) (x1 x2 : List ℝ)
    (h1 : IsMinNormLstsqSol A b n x1) (h2 : IsMinNormLstsqSol A b n x2) : x1 = x2 := by
  obtain ⟨⟨hl1, hm1⟩, hn1⟩ := h1
  obtain ⟨⟨hl2, hm2⟩, hn2⟩ := h2
  have hlen : x1.length = x2.length := hl1.trans hl2.symm
  have hml : (List.zipWith (fun a b => (a + b) / 2) x1 x2).length = n := by
    rw [List.length_zipWith, hl1, hl2, min_self]
  have h12 : rss A b x1 = rss A b x2 := le_antisymm (hm1 x2 hl2) (hm2 x1 hl1)
  have hmle : rss A b (List.zipWith (fun a b => (a + b) / 2) x1 x2) ≤ rss A b x1 := by
    have h := rss_avg_le A b x1 x2 hlen
    linarith
  have hmmin : IsLstsqSol A b n (List.zipWith (fun a b => (a + b) / 2) x1 x2) :=
    ⟨hml, fun y hy => le_trans hmle (hm1 y hy)⟩
  have hle1 : sqnorm x1 ≤ sqnorm (List.zipWith (fun a b => (a + b) / 2) x1 x2) :=
    hn1 _ hmmin
  have hle2 : sqnorm x2 ≤ sqnorm (List.zipWith (fun a b => (a + b) / 2) x1 x2) :=
    hn2 _ hmmin
  have hpar := sqnorm_avg x1 x2 hlen
  exact eq_of_sq_diff_sum_nonpos x1 x2 hlen (by linarith)

/-- The rows of the fitting system are a pointwise function of the
(measured temperature, resistance) pairs. -/
theorem design_zip_eq (temperature resistance : List ℝ) (powers : List ℕ)
    (temp_in_celsius : Bool) :
    (design_matrix resistance powers).zip (inv_temps temperature temp_in_celsius) =
      (temperature.zip resistance).map fun q =>
        (powers.map fun p => Real.log q.2 ^ p,
          1 / (if temp_in_celsius then q.1 + 273.15 else q.1)) := by
  unfold design_matrix inv_temps
  rw [List.zip_map, ← List.zip_swap temperature resistance, List.map_map]
  rfl

/-- Permuting the measurement pairs leaves the residual sum of squares of
the fitting system unchanged for every candidate vector. -/
theorem rss_perm (t1 r1 t2 r2 : List ℝ) (powers : List ℕ) (temp_in_celsius : Bool)
    (hp : (t2.zip r2).Perm (t1.zip r1)) (x : List ℝ) :
    rss (design_matrix r2 powers) (inv_temps t2 temp_in_celsius) x =
      rss (design_matrix r1 powers) (inv_temps t1 temp_in_celsius) x := by
  unfold rss
  rw [design_zip_eq t2 r2 powers temp_in_celsius, design_zip_eq t1 r1 powers
    temp_in_celsius, List.map_map, List.map_map]
  exact (hp.map _).sum_eq

/-- C8: reordering the measurement pairs does not change the fitted
coefficient vector.  Given that the library solver (`np.linalg.lstsq`)
returns the minimum-norm least-squares solution for each system it is
handed — its documented contract — `fit_steinhart_hart` produces the same
output on any permutation of the measurement pairs, because permuting the
rows leaves the residual functional unchanged and the minimum-norm
minimiser is unique. -/
theorem c8_fit_permutation_invariant (solver : List (List ℝ) → List ℝ → List ℝ)
    (temperature resistance temperature2 resistance2 : List ℝ) (powers : List ℕ)
    (temp_in_celsius : Bool)
    (hperm : (temperature2.zip resistance2).Perm (temperature.zip resistance))
    (hlen : temperature.length = resistance.length)
    (hlen2 : temperature2.length = resistance2.length)
    (hpow : 1 ≤ powers.length) (hdet : powers.length ≤ temperature.length)
    (hs1 : IsMinNormLstsqSol (design_matrix resistance powers)
      (inv_temps temperature temp_in_celsius) powers.length
      (solver (design_matrix resistance powers)
        (inv_temps temperature temp_in_celsius)))
    (hs2 : IsMinNormLstsqSol (design_matrix resistance2 powers)
      (inv_temps temperature2 temp_in_celsius) powers.length
      (solver (design_matrix resistance2 powers)
        (inv_temps temperature2 temp_in_celsius))) :
    fit_steinhart_hart solver temperature2 resistance2 powers temp_in_celsius =
      fit_steinhart_hart solver temperature resistance powers temp_in_celsius := by
  have hlen12 : temperature2.length = temperature.length := by
    have h := hperm.length_eq
    rw [List.length_zip, List.length_zip] at h
    omega
  have hdet2 : powers.length ≤ temperature2.length := by omega
  have hrss := rss_perm temperature resistance temperature2 resistance2 powers
    temp_in_celsius hperm
  have htrans : ∀ y, IsLstsqSol (design_matrix resistance2 powers)
      (inv_temps temperature2 temp_in_celsius) powers.length y ↔
      IsLstsqSol (design_matrix resistance powers)
        (inv_temps temperature temp_in_celsius) powers.length y := by
    intro y
    constructor
    · rintro ⟨hl, hmin⟩
      exact ⟨hl, fun z hz => by rw [← hrss y, ← hrss z]; exact hmin z hz⟩
    · rintro ⟨hl, hmin⟩
      exact ⟨hl, fun z hz => by rw [hrss y, hrss z]; exact hmin z hz⟩
  have hs2' : IsMinNormLstsqSol (design_matrix resistance powers)
      (inv_temps temperature temp_in_celsius) powers.length
      (solver (design_matrix resistance2 powers)
        (inv_temps temperature2 temp_in_celsius)) := by
    obtain ⟨hsol, hmin⟩ := hs2
    exact ⟨(htrans _).mp hsol, fun y hy => hmin y ((htrans y).mpr hy)⟩
  have heq := minnorm_unique (design_matrix resistance powers)
    (inv_temps temperature temp_in_celsius) powers.length _ _ hs2' hs1
  simp only [fit_steinhart_hart, if_pos hlen, if_pos hlen2, if_pos hdet, if_pos hdet2,
    if_pos hpow, heq]

/-- Witness for C8 at a concrete input: two measurements in Kelvin mode,
swapped, with the constant-only model; the minimum-norm solution of both
orderings is the mean `[2]` of the inverse temperatures `[1, 3]`. -/
theorem c8_fit_permutation_invariant_witness :
    fit_steinhart_hart (fun _ _ => [2]) [1 / 3, 1] [1, 1] [0] false =
      fit_steinhart_hart (fun _ _ => [2]) [1, 1 / 3] [1, 1] [0] false := by
  have hperm : (([1 / 3, 1] : List ℝ).zip ([1, 1] : List ℝ)).Perm
      (([1, 1 / 3] : List ℝ).zip ([1, 1] : List ℝ)) := by
    show ([((1 : ℝ) / 3, (1 : ℝ)), ((1 : ℝ), (1 : ℝ))] : List (ℝ × ℝ)).Perm
        [((1 : ℝ), (1 : ℝ)), ((1 : ℝ) / 3, (1 : ℝ))]
    exact List.Perm.swap _ _ _
  have hs1 : IsMinNormLstsqSol (design_matrix [1, 1] [0]) (inv_temps [1, 1 / 3] false) 1
      [2] := by
    constructor
    · refine ⟨rfl, fun y hy => ?_⟩
      obtain ⟨a, rfl⟩ := List.length_eq_one.mp hy
      simp [design_matrix, inv_temps, rss, dot]
      norm_num
      nlinarith [sq_nonneg (a - 2)]
    · intro y hy
      obtain ⟨a, rfl⟩ := List.length_eq_one.mp hy.1
      have h2 := hy.2 [2] rfl
      simp [design_matrix, inv_temps, rss, dot] at h2
      norm_num at h2
      have h3 : (a - 2) ^ 2 = 0 :=
        le_antisymm (by nlinarith) (sq_nonneg _)
      have ha : a = 2 := by
        have := sq_eq_zero_iff.mp h3
        linarith
      rw [ha]
  have hs2 : IsMinNormLstsqSol (design_matrix [1, 1] [0]) (inv_temps [1 / 3, 1] false) 1
      [2] := by
    constructor
    · refine ⟨rfl, fun y hy => ?_⟩
      obtain ⟨a, rfl⟩ := List.length_eq_one.mp hy
      simp [design_matrix, inv_temps, rss, dot]
      norm_num
      nlinarith [sq_nonneg (a - 2)]
    · intro y hy
      obtain ⟨a, rfl⟩ := List.length_eq_one.mp hy.1
      have h2 := hy.2 [2] rfl
      simp [design_matrix, inv_temps, rss, dot] at h2
      norm_num at h2
      have h3 : (a - 2) ^ 2 = 0 :=
        le_antisymm (by nlinarith) (sq_nonneg _)
      have ha : a = 2 := by
        have := sq_eq_zero_iff.mp h3
        linarith
      rw [ha]
  exact c8_fit_permutation_invariant (fun _ _ => [2]) [1, 1 / 3] [1, 1] [1 / 3, 1] [1, 1]
    [0] false hperm rfl rfl (by norm_num) (by norm_num) hs1 hs2
